import Mathlib

/-
Verification development for the map-tile fetch/cache core:
  - pkg/tiles/tile.go          (coordinate math, tile-set selection)
  - internal/tileserver/server.go  (raster TileCache: disk cache, single-flight, prefetch queue)
  - internal/vectortile/vectortile.go (VectorTileCache: in-memory cache, single-flight)

Go `int` values are modelled as `Int`; byte payloads and decoded TileData
records are abstracted as `Nat` identifiers (the code treats them as opaque).
-/

namespace MapSpec

/-- TileCoord (tile.go lines 9-13): a slippy-map tile coordinate. Go ints are
modelled as `Int`. -/
structure TileCoord where
  x : Int
  y : Int
  zoom : Int
deriving DecidableEq

/-- The value `int(math.Pow(2, zoom))` used throughout tile.go. For zoom ≥ 0
`math.Pow(2, zoom)` is exact (zoom ≤ 18 in practice) and the Go conversion is
the identity; for negative zoom the float value is a fraction in (0, 1) and
`int(...)` truncates it to 0. -/
def pow2int (z : Int) : Int :=
  if 0 ≤ z then (2 : Int) ^ z.toNat else 0

/-- The `maxTile := int(math.Pow(2, zoom)) - 1` bound computed in tile.go
(lines 36, 62, 98, 128). -/
def maxTileOf (z : Int) : Int := pow2int z - 1

/-- GetAdjacentTiles (tile.go lines 61-83): neighbors in the fixed order
right, left, down, up, each appended only when in range. -/
def GetAdjacentTiles (t : TileCoord) : List TileCoord :=
  (if t.x + 1 ≤ maxTileOf t.zoom then [TileCoord.mk (t.x + 1) t.y t.zoom] else []) ++
  (if 0 ≤ t.x - 1 then [TileCoord.mk (t.x - 1) t.y t.zoom] else []) ++
  (if t.y + 1 ≤ maxTileOf t.zoom then [TileCoord.mk t.x (t.y + 1) t.zoom] else []) ++
  (if 0 ≤ t.y - 1 then [TileCoord.mk t.x (t.y - 1) t.zoom] else [])

/-- GetVisibleTiles (tile.go lines 86-113), parameterized by the center tile,
which the Go code first computes as `LatLonToTile(centerLat, centerLon, zoom)`
(line 89; the float projection is treated separately, see `clampTile`).
`tilesX = viewportWidth/tileSize + 3` and `tilesY` use Go integer division
(lines 92-93); the double loop runs dy from -halfY to halfY and dx from
-halfX to halfX (lines 101-110), keeping in-range tiles. The loop offset dy
is recovered from the iteration index iy as iy - halfY (and dx likewise). -/
def GetVisibleTilesFrom (ct : TileCoord) (viewportWidth viewportHeight : Nat) : List TileCoord :=
  let tileSize := 256
  let tilesX := viewportWidth / tileSize + 3
  let tilesY := viewportHeight / tileSize + 3
  let halfX := tilesX / 2
  let halfY := tilesY / 2
  (List.range (2 * halfY + 1)).flatMap (fun iy =>
    (List.range (2 * halfX + 1)).filterMap (fun (ix : Nat) =>
      let x : Int := ct.x + ((ix : Int) - (halfX : Int))
      let y : Int := ct.y + ((iy : Int) - (halfY : Int))
      if 0 ≤ x ∧ x ≤ maxTileOf ct.zoom ∧ 0 ≤ y ∧ y ≤ maxTileOf ct.zoom then
        some (TileCoord.mk x y ct.zoom)
      else none))

/-- Clamping section of LatLonToTile (tile.go lines 32-45): the two projected
values (modelled as arbitrary integers px, py, since the Web Mercator float
computation of lines 27-30 yields some platform integer after `int(...)`) are
clamped sequentially: first raised to 0 when negative, then lowered to
maxTile when above it. -/
def clampTile (px py : Int) (z : Int) : TileCoord :=
  let maxTile := maxTileOf z
  let x1 := if px < 0 then 0 else px
  let x2 := if x1 > maxTile then maxTile else x1
  let y1 := if py < 0 then 0 else py
  let y2 := if y1 > maxTile then maxTile else y1
  TileCoord.mk x2 y2 z

/-- Go float-to-int conversion truncates toward zero; on exact rationals this
is floor for nonnegative values and negated floor of the negation otherwise. -/
def ratTrunc (q : Rat) : Int :=
  if q < 0 then -(Int.floor (-q)) else Int.floor q

/-- The x computation of LatLonToTile (tile.go line 28),
`x := int((lon + 180.0) / 360.0 * n)`, evaluated in exact rational
arithmetic. For the inputs of interest the float64 evaluation agrees: the
value lies well over 1e-3 away from the nearest integer while float64
rounding error is below 1e-9 here. -/
def latLonToTileXRat (lon : Rat) (zoom : Nat) : Int :=
  ratTrunc ((lon + 180) / 360 * ((2 : Rat) ^ zoom))

/-- The x component of LatLonToTile including the clamp of lines 33-39. -/
def latLonToTileXClamped (lon : Rat) (zoom : Nat) : Int :=
  let x := latLonToTileXRat lon zoom
  let maxTile : Int := (2 : Int) ^ zoom - 1
  let x1 := if x < 0 then 0 else x
  if x1 > maxTile then maxTile else x1

/-- The raster cache's bounded fetch queue has capacity 1000
(server.go line 165: `make(chan tiles.TileCoord, 1000)`). -/
def fetchQueueCap : Nat := 1000

/-- Non-blocking enqueue (server.go lines 283-287 and 295-299): a
`select` with a `default` branch on the buffered channel appends when the
buffer has room and otherwise drops the coordinate, leaving the queue
unchanged. The queue is modelled as the list of buffered coordinates. -/
def enqueueNonBlocking (q : List TileCoord) (c : TileCoord) : List TileCoord :=
  if q.length < fetchQueueCap then q ++ [c] else q

/-- queuePrefetch (server.go lines 279-289): non-blocking enqueue of each
adjacent tile in order. -/
def queuePrefetchFold (q : List TileCoord) (coord : TileCoord) : List TileCoord :=
  (GetAdjacentTiles coord).foldl enqueueNonBlocking q

/-- PrefetchArea's enqueue loop (server.go lines 292-301), parameterized by
the list `GetPrefetchTiles(...)` it iterates over. -/
def prefetchAreaFold (q : List TileCoord) (coords : List TileCoord) : List TileCoord :=
  coords.foldl enqueueNonBlocking q

/-- tileKey (vectortile.go lines 74-76): `fmt.Sprintf("%d/%d/%d", z, x, y)`
on raw ints; Go's %d prints negative values with a leading minus sign,
matching `toString` on `Int`. -/
def tileKey (z x y : Int) : String :=
  toString z ++ "/" ++ toString x ++ "/" ++ toString y

/-- TileCoord.String (tile.go lines 15-17), the raster in-flight key. -/
def tileCoordString (t : TileCoord) : String :=
  toString t.zoom ++ "/" ++ toString t.x ++ "/" ++ toString t.y

/-- tilePath (server.go lines 191-193):
`filepath.Join(cacheDir, fmt.Sprintf("%d_%d_%d.png", zoom, x, y))`. -/
def tilePath (cacheDir : String) (t : TileCoord) : String :=
  cacheDir ++ "/" ++ toString t.zoom ++ "_" ++ toString t.x ++ "_" ++ toString t.y ++ ".png"

/-- HasTile (vectortile.go lines 127-133): presence check of the in-memory
map, keyed by tileKey; the map is modelled as an association list. -/
def HasTile (tilesMap : List (String × Nat)) (z x y : Int) : Bool :=
  (tilesMap.lookup (tileKey z x y)).isSome

/-- IsCached (server.go lines 304-308): `os.Stat` on the tile path; the disk
is modelled as an association list from paths to file contents. -/
def IsCached (disk : List (String × Nat)) (cacheDir : String) (t : TileCoord) : Bool :=
  (disk.lookup (tilePath cacheDir t)).isSome

/-- Solo (uncontended) run of VectorTileCache.GetTile (vectortile.go lines
79-124) with no concurrent caller, so the in-flight map is empty at the
check on line 92: cache lookup, register, fetchAndParse with outcome fo
(some data, or none for a network/status/decode failure), deregister,
insert on success. Returns (new map, returned data, error?, fetches done). -/
def vectorGetTileSolo (tilesMap : List (String × Nat)) (z x y : Int) (fo : Option Nat) :
    List (String × Nat) × Option Nat × Bool × Nat :=
  match tilesMap.lookup (tileKey z x y) with
  | some d => (tilesMap, some d, false, 0)
  | none =>
    match fo with
    | some d => ((tileKey z x y, d) :: tilesMap, some d, false, 1)
    | none => (tilesMap, none, true, 1)

/-- A filterMap whose function is total on the list degenerates to a map. -/
lemma length_filterMap_of_isSome {a c : Type} (l : List a) (g : a → Option c)
    (h : ∀ x ∈ l, (g x).isSome = true) : (l.filterMap g).length = l.length := by
  induction l with
  | nil => rfl
  | cons b t ih =>
    rw [List.filterMap_cons]
    cases hg : g b with
    | none =>
      exact absurd (h b (List.mem_cons_self b t)) (by rw [hg]; simp)
    | some v =>
      simp only [List.length_cons]
      rw [ih fun x hx => h x (List.mem_cons_of_mem b hx)]

/-- Length of a grid traversal in which every cell survives the filter. -/
lemma flatMap_filterMap_length {c : Type} (m k : Nat) (f : Nat → Nat → Option c)
    (h : ∀ iy, iy < m → ∀ ix, ix < k → (f iy ix).isSome = true) :
    ((List.range m).flatMap fun iy => (List.range k).filterMap (f iy)).length = m * k := by
  induction m with
  | zero => simp
  | succ m ih =>
    rw [List.range_succ, List.flatMap_append, List.length_append]
    rw [ih fun iy hiy => h iy (Nat.lt_succ_of_lt hiy)]
    simp only [List.flatMap_cons, List.flatMap_nil, List.append_nil]
    rw [length_filterMap_of_isSome]
    · rw [List.length_range, Nat.succ_mul]
    · intro x hx
      rw [List.mem_range] at hx
      exact h m (Nat.lt_succ_self m) x hx

/-- GetVisibleTiles produces a full (2·halfY+1) × (2·halfX+1) grid whenever the
center tile is at least halfX and halfY away from the map edges. -/
lemma getVisibleTilesFrom_length (ct : TileCoord) (vw vh : Nat)
    (hx1 : (((vw / 256 + 3) / 2 : Nat) : Int) ≤ ct.x)
    (hx2 : ct.x + (((vw / 256 + 3) / 2 : Nat) : Int) ≤ maxTileOf ct.zoom)
    (hy1 : (((vh / 256 + 3) / 2 : Nat) : Int) ≤ ct.y)
    (hy2 : ct.y + (((vh / 256 + 3) / 2 : Nat) : Int) ≤ maxTileOf ct.zoom) :
    (GetVisibleTilesFrom ct vw vh).length
      = (2 * ((vh / 256 + 3) / 2) + 1) * (2 * ((vw / 256 + 3) / 2) + 1) := by
  simp only [GetVisibleTilesFrom]
  apply flatMap_filterMap_length
  intro iy hiy ix hix
  rw [if_pos]
  · rfl
  · have hb1 : ((ix : Int)) < 2 * (((vw / 256 + 3) / 2 : Nat) : Int) + 1 := by exact_mod_cast hix
    have hb2 : ((iy : Int)) < 2 * (((vh / 256 + 3) / 2 : Nat) : Int) + 1 := by exact_mod_cast hiy
    refine ⟨by omega, by omega, by omega, by omega⟩

/-- C5 counterexample: for a 1280×720 viewport at zoom 12 with an interior
center tile, GetVisibleTiles returns 45 tiles, not the claimed
(⌈1280/256⌉+3) × (⌈720/256⌉+3) = 8 × 6 = 48: the code floors 720/256 to 2
(tilesY = 5, not 6) and the loop spans 2·(tilesX/2)+1 = 9 columns by
2·(tilesY/2)+1 = 5 rows. -/
theorem c5_visible_grid_counterexample :
    (GetVisibleTilesFrom (TileCoord.mk 100 100 12) 1280 720).length = 45 ∧
    ¬ (GetVisibleTilesFrom (TileCoord.mk 100 100 12) 1280 720).length = 48 := by
  constructor
  · decide
  · decide

/-- C5 (amended): for a 1280×720 viewport at zoom 12 with a center tile at
least 4 columns and 2 rows from the map edges, GetVisibleTiles returns a full
rectangular grid of (2·⌊(⌊1280/256⌋+3)/2⌋+1) × (2·⌊(⌊720/256⌋+3)/2⌋+1)
= 9 × 5 = 45 tiles, centered on the center tile. -/
theorem c5_visible_grid_amended (ct : TileCoord) (h1 : 4 ≤ ct.x)
    (h2 : ct.x + 4 ≤ maxTileOf ct.zoom) (h3 : 2 ≤ ct.y)
    (h4 : ct.y + 2 ≤ maxTileOf ct.zoom) :
    (GetVisibleTilesFrom ct 1280 720).length = 45 := by
  have h := getVisibleTilesFrom_length ct 1280 720
    (by norm_num; omega) (by norm_num; omega) (by norm_num; omega) (by norm_num; omega)
  norm_num at h
  exact h

/-- C5 witness: the amended grid count at the concrete interior center
(100, 100) of zoom 12. -/
theorem c5_visible_grid_witness :
    (4 ≤ (TileCoord.mk 100 100 12).x ∧ (TileCoord.mk 100 100 12).x + 4 ≤ maxTileOf 12 ∧
      2 ≤ (TileCoord.mk 100 100 12).y ∧ (TileCoord.mk 100 100 12).y + 2 ≤ maxTileOf 12) ∧
    (GetVisibleTilesFrom (TileCoord.mk 100 100 12) 1280 720).length = 45 :=
  ⟨⟨by decide, by decide, by decide, by decide⟩,
    c5_visible_grid_amended (TileCoord.mk 100 100 12) (by decide) (by decide) (by decide)
      (by decide)⟩

/-- C6: GetAdjacentTiles on an interior tile returns exactly the four
neighbors in the order right, left, down, up; on the corner tile (0,0) it
returns exactly the two in-range neighbors in the order right, down. -/
theorem c6_adjacent_order :
    (∀ t : TileCoord, 0 < t.x → t.x < maxTileOf t.zoom → 0 < t.y → t.y < maxTileOf t.zoom →
      GetAdjacentTiles t = [TileCoord.mk (t.x + 1) t.y t.zoom, TileCoord.mk (t.x - 1) t.y t.zoom,
        TileCoord.mk t.x (t.y + 1) t.zoom, TileCoord.mk t.x (t.y - 1) t.zoom]) ∧
    (∀ z : Int, 1 ≤ maxTileOf z →
      GetAdjacentTiles (TileCoord.mk 0 0 z) = [TileCoord.mk 1 0 z, TileCoord.mk 0 1 z]) := by
  constructor
  · intro t h1 h2 h3 h4
    unfold GetAdjacentTiles
    rw [if_pos (by omega), if_pos (by omega), if_pos (by omega), if_pos (by omega)]
    rfl
  · intro z hz
    have e1 : (TileCoord.mk 0 0 z).x = 0 := rfl
    have e2 : (TileCoord.mk 0 0 z).y = 0 := rfl
    have e3 : (TileCoord.mk 0 0 z).zoom = z := rfl
    unfold GetAdjacentTiles
    rw [e1, e2, e3]
    rw [if_pos (by omega), if_neg (by omega), if_pos (by omega), if_neg (by omega)]
    norm_num

/-- C6 witness: interior tile (5,7) and corner tile (0,0) at zoom 12. -/
theorem c6_adjacent_order_witness :
    GetAdjacentTiles (TileCoord.mk 5 7 12)
      = [TileCoord.mk 6 7 12, TileCoord.mk 4 7 12, TileCoord.mk 5 8 12, TileCoord.mk 5 6 12] ∧
    GetAdjacentTiles (TileCoord.mk 0 0 12) = [TileCoord.mk 1 0 12, TileCoord.mk 0 1 12] := by
  constructor
  · have h := c6_adjacent_order.1 (TileCoord.mk 5 7 12) (by decide) (by decide) (by decide)
      (by decide)
    simpa using h
  · exact c6_adjacent_order.2 12 (by decide)

/-- C7: whatever integers the Web Mercator float projection produces
(including the extreme values arising from lat = ±90 or antimeridian
longitudes), the clamp of LatLonToTile lines 32-45 yields x and y in
[0, 2^zoom − 1] for every zoom ≥ 0. -/
theorem c7_geo_clamp_in_range (px py z : Int) (hz : 0 ≤ z) :
    0 ≤ (clampTile px py z).x ∧ (clampTile px py z).x ≤ maxTileOf z ∧
    0 ≤ (clampTile px py z).y ∧ (clampTile px py z).y ≤ maxTileOf z := by
  have hm : 0 ≤ maxTileOf z := by
    unfold maxTileOf pow2int
    rw [if_pos hz]
    have h2 := pow_pos (show (0 : Int) < 2 by norm_num) z.toNat
    omega
  simp only [clampTile]
  split_ifs <;> refine ⟨by omega, by omega, by omega, by omega⟩

/-- C7 witness: a projection result far below 0 and far above the maximum
both land in range at zoom 12. -/
theorem c7_geo_clamp_in_range_witness :
    0 ≤ (clampTile (-100) 123456789 12).x ∧ (clampTile (-100) 123456789 12).x ≤ maxTileOf 12 ∧
    0 ≤ (clampTile (-100) 123456789 12).y ∧ (clampTile (-100) 123456789 12).y ≤ maxTileOf 12 :=
  c7_geo_clamp_in_range (-100) 123456789 12 (by norm_num)

/-- Exact evaluation of the Amsterdam x tile column at zoom 12:
(4.9041 + 180)/360 · 4096 = 6574368/3125 = 2103.79..., so x = 2103. -/
lemma latLonToTileX_amsterdam : latLonToTileXClamped (49041 / 10000 : Rat) 12 = 2103 := by
  have h1 : ((49041 / 10000 : Rat) + 180) / 360 * ((2 : Rat) ^ 12) = 6574368 / 3125 := by
    norm_num
  have h2 : Int.floor ((6574368 : Rat) / 3125) = 2103 := by
    rw [Int.floor_eq_iff]
    constructor
    · norm_num
    · norm_num
  unfold latLonToTileXClamped latLonToTileXRat ratTrunc
  rw [h1, if_neg (by norm_num), h2]
  rw [if_neg (by norm_num), if_neg (by norm_num)]

/-- C8 counterexample: LatLonToTile's x computation on lon = 4.9041 at zoom
12, evaluated in exact arithmetic (the float64 value is within 1e-9 of it,
far from an integer boundary), yields x = 2103 — not the claimed 2108. -/
theorem c8_amsterdam_counterexample :
    latLonToTileXClamped (49041 / 10000 : Rat) 12 = 2103 ∧
    ¬ latLonToTileXClamped (49041 / 10000 : Rat) 12 = 2108 := by
  refine ⟨latLonToTileX_amsterdam, ?_⟩
  rw [latLonToTileX_amsterdam]
  norm_num

/-- C8 (amended): the Amsterdam golden tile column at zoom 12 is x = 2103
(standard Web Mercator; the claimed (2108, 1364) is not the code's output —
standard tables give (2103, 1346); the transcendental y computation is
outside the executable embedding). -/
theorem c8_amsterdam_amended : latLonToTileXClamped (49041 / 10000 : Rat) 12 = 2103 :=
  latLonToTileX_amsterdam

/-- An enqueue fold never grows the queue beyond the channel capacity. -/
lemma foldl_enqueue_le (coords : List TileCoord) (q : List TileCoord)
    (h : q.length ≤ fetchQueueCap) :
    (coords.foldl enqueueNonBlocking q).length ≤ fetchQueueCap := by
  induction coords generalizing q with
  | nil => exact h
  | cons c t ih =>
    rw [List.foldl_cons]
    apply ih
    unfold enqueueNonBlocking
    split_ifs with hlt
    · rw [List.length_append]
      simp only [List.length_singleton]
      omega
    · exact h

/-- C9: the non-blocking enqueue is a total function of the queue state — a
full queue drops the coordinate and is left unchanged, a non-full queue gets
it appended — and the queuePrefetch / PrefetchArea loops never grow the
queue beyond its capacity, so no producer ever waits on it. -/
theorem c9_enqueue_never_blocks :
    (∀ (q : List TileCoord) (c : TileCoord), fetchQueueCap ≤ q.length →
      enqueueNonBlocking q c = q) ∧
    (∀ (q : List TileCoord) (c : TileCoord), q.length < fetchQueueCap →
      enqueueNonBlocking q c = q ++ [c]) ∧
    (∀ (q coords : List TileCoord), q.length ≤ fetchQueueCap →
      (prefetchAreaFold q coords).length ≤ fetchQueueCap) ∧
    (∀ (q : List TileCoord) (coord : TileCoord), q.length ≤ fetchQueueCap →
      (queuePrefetchFold q coord).length ≤ fetchQueueCap) := by
  refine ⟨?_, ?_, ?_, ?_⟩
  · intro q c h
    unfold enqueueNonBlocking
    rw [if_neg (by omega)]
  · intro q c h
    unfold enqueueNonBlocking
    rw [if_pos h]
  · intro q coords h
    exact foldl_enqueue_le coords q h
  · intro q coord h
    exact foldl_enqueue_le (GetAdjacentTiles coord) q h

/-- C9 witness: a full queue of 1000 entries drops the new coordinate; an
empty queue appends it; the fold bounds hold on concrete inputs. -/
theorem c9_enqueue_never_blocks_witness :
    enqueueNonBlocking (List.replicate 1000 (TileCoord.mk 0 0 0)) (TileCoord.mk 1 1 1)
      = List.replicate 1000 (TileCoord.mk 0 0 0) ∧
    enqueueNonBlocking [] (TileCoord.mk 1 1 1) = [] ++ [TileCoord.mk 1 1 1] ∧
    (prefetchAreaFold [] [TileCoord.mk 1 1 1]).length ≤ fetchQueueCap ∧
    (queuePrefetchFold [] (TileCoord.mk 3 3 12)).length ≤ fetchQueueCap := by
  refine ⟨?_, ?_, ?_, ?_⟩
  · exact c9_enqueue_never_blocks.1 _ _ (by rw [List.length_replicate]; norm_num [fetchQueueCap])
  · exact c9_enqueue_never_blocks.2.1 _ _ (by norm_num [fetchQueueCap])
  · exact c9_enqueue_never_blocks.2.2.1 _ _ (by norm_num [fetchQueueCap])
  · exact c9_enqueue_never_blocks.2.2.2 _ _ (by norm_num [fetchQueueCap])

/-- C10: neither cache validates coordinates — tileKey, tilePath, HasTile,
IsCached and the GetTile path are defined on all integers (negative values
and out-of-range zooms included): the key is derived from the raw integers,
lookup/insert proceed under it, and a miss leads straight to a fetch. -/
theorem c10_no_range_validation :
    (∀ (z x y : Int) (tilesMap : List (String × Nat)) (d : Nat),
      HasTile ((tileKey z x y, d) :: tilesMap) z x y = true) ∧
    (∀ (z x y : Int) (tilesMap : List (String × Nat)) (fo : Option Nat),
      tilesMap.lookup (tileKey z x y) = none →
      (vectorGetTileSolo tilesMap z x y fo).2.2.2 = 1) ∧
    (∀ (z x y : Int) (tilesMap : List (String × Nat)) (d : Nat),
      tilesMap.lookup (tileKey z x y) = none →
      vectorGetTileSolo tilesMap z x y (some d)
        = ((tileKey z x y, d) :: tilesMap, some d, false, 1)) ∧
    (∀ (disk : List (String × Nat)) (dir : String) (t : TileCoord) (d : Nat),
      IsCached ((tilePath dir t, d) :: disk) dir t = true) ∧
    tileKey (-1) (-2) 25 = "-1/-2/25" ∧
    tilePath "cache" (TileCoord.mk (-7) (-8) (-1)) = "cache/-1_-7_-8.png" := by
  refine ⟨?_, ?_, ?_, ?_, ?_, ?_⟩
  · intro z x y tilesMap d
    simp [HasTile, List.lookup]
  · intro z x y tilesMap fo h
    cases fo <;> simp [vectorGetTileSolo, h]
  · intro z x y tilesMap d h
    simp [vectorGetTileSolo, h]
  · intro disk dir t d
    simp [IsCached, List.lookup]
  · rfl
  · rfl

/-- C10 witness: a negative zoom and negative coordinates flow through key
derivation, caching, lookup and the fetch path without any range error. -/
theorem c10_no_range_validation_witness :
    HasTile [(tileKey (-1) (-2) 25, 5)] (-1) (-2) 25 = true ∧
    (vectorGetTileSolo [] (-1) (-2) 25 (some 5)).2.2.2 = 1 ∧
    vectorGetTileSolo [] (-1) (-2) 25 (some 5) = ([(tileKey (-1) (-2) 25, 5)], some 5, false, 1) ∧
    IsCached [(tilePath "c" (TileCoord.mk (-2) 25 (-1)), 9)] "c" (TileCoord.mk (-2) 25 (-1)) = true := by
  refine ⟨?_, ?_, ?_, ?_⟩
  · exact c10_no_range_validation.1 (-1) (-2) 25 [] 5
  · exact c10_no_range_validation.2.1 (-1) (-2) 25 [] (some 5) rfl
  · exact c10_no_range_validation.2.2.1 (-1) (-2) 25 [] 5 rfl
  · exact c10_no_range_validation.2.2.2.1 [] "c" (TileCoord.mk (-2) 25 (-1)) 9



def ictr (b : Bool) : Nat := if b then 1 else 0

def cnt {n : Nat} {α : Type} (f : Fin n → α) (p : α → Bool) : Nat :=
  Finset.univ.sum fun j => ictr (p (f j))

lemma ictr_le_one (b : Bool) : ictr b ≤ 1 := by
  cases b <;> simp [ictr]

lemma cnt_update {n : Nat} {α : Type} (f : Fin n → α) (i : Fin n) (v : α) (p : α → Bool) :
    cnt (Function.update f i v) p + ictr (p (f i)) = cnt f p + ictr (p v) := by
  classical
  unfold cnt
  have h1 : (fun j => ictr (p (Function.update f i v j)))
      = Function.update (fun j => ictr (p (f j))) i (ictr (p v)) := by
    funext j
    by_cases hj : j = i
    · subst hj
      rw [Function.update_same, Function.update_same]
    · rw [Function.update_noteq hj, Function.update_noteq hj]
  rw [h1, Finset.sum_update_of_mem (Finset.mem_univ i)]
  rw [← Finset.add_sum_erase Finset.univ (fun j => ictr (p (f j))) (Finset.mem_univ i)]
  have h2 : Finset.univ \ {i} = Finset.univ.erase i := by
    rw [Finset.erase_eq]
  rw [h2]
  omega

lemma cnt_le {n : Nat} {α : Type} (f : Fin n → α) (p : α → Bool) : cnt f p ≤ n := by
  unfold cnt
  calc Finset.univ.sum (fun j => ictr (p (f j)))
      ≤ Finset.univ.sum (fun (_ : Fin n) => 1) :=
        Finset.sum_le_sum fun j _ => ictr_le_one (p (f j))
    _ = n := by simp

lemma cnt_pos {n : Nat} {α : Type} (f : Fin n → α) (p : α → Bool) (i : Fin n)
    (h : p (f i) = true) : 1 ≤ cnt f p := by
  unfold cnt
  calc 1 = ictr (p (f i)) := by rw [h]; rfl
    _ ≤ Finset.univ.sum fun j => ictr (p (f j)) :=
        Finset.single_le_sum (fun j _ => Nat.zero_le (ictr (p (f j)))) (Finset.mem_univ i)

lemma cnt_eq_zero {n : Nat} {α : Type} (f : Fin n → α) (p : α → Bool)
    (h : ∀ i, p (f i) = false) : cnt f p = 0 := by
  unfold cnt
  exact Finset.sum_eq_zero fun i _ => by rw [h i]; rfl

lemma cnt_three_le {n : Nat} {α : Type} (f : Fin n → α) (p q r : α → Bool)
    (h : ∀ a, ictr (p a) + ictr (q a) + ictr (r a) ≤ 1) :
    cnt f p + cnt f q + cnt f r ≤ n := by
  unfold cnt
  rw [← Finset.sum_add_distrib, ← Finset.sum_add_distrib]
  calc Finset.univ.sum (fun j => ictr (p (f j)) + ictr (q (f j)) + ictr (r (f j)))
      ≤ Finset.univ.sum (fun (_ : Fin n) => 1) := Finset.sum_le_sum fun j _ => h (f j)
    _ = n := by simp

lemma cnt_update_same {n : Nat} {α : Type} (f : Fin n → α) (i : Fin n) (v : α) (p : α → Bool)
    (h : p v = p (f i)) : cnt (Function.update f i v) p = cnt f p := by
  have h2 := cnt_update f i v p
  rw [h] at h2
  omega

/-
Concurrency model of the two single-flight caches, one machine per cache,
specialised to a single tile key (fetches of distinct keys touch disjoint
disk paths, map entries and registry entries, so a per-key model is exact).
A configuration holds the shared state for the key plus one program counter
per caller thread; each step is one atomic action of one thread (un-locked
reads are their own steps; each mutex-protected critical section is one
step). The fetch outcome is a machine parameter `fo`: `some d` means every
network fetch succeeds with payload d (the origin serves immutable tiles),
`none` means every fetch fails (network error, non-200 status, decode error
or timeout). A schedule is the list of thread ids in execution order, so
every interleaving is a schedule and theorems quantified over schedules
cover all interleavings.

Raster cache thread (server.go): RPC.start is GetTile's cache read (line
200); RPC.recheck is fetchTile's re-read (line 222); RPC.checkReg is the
inFlight critical section (lines 227-237): if an entry exists the thread
records the open channel number and waits, otherwise it registers itself
(gen counts channels ever created, closedCh channels closed; an entry
exists iff gen = closedCh + 1, and channels close in creation order since
delete and close happen in one critical section, lines 239-244);
RPC.fetching performs the HTTP fetch (lines 246-267); RPC.writeDisk is the
os.WriteFile (line 270); RPC.finishOwner is the deferred delete-and-close;
RPC.waiting blocks on the recorded channel (line 230); RPC.reread is the
waiter's os.ReadFile (line 231). RPC.done r b carries the returned bytes
(none = an error was returned, since the waiter's ReadFile of a missing
file returns an error) and whether the thread was a fetch owner.
-/

inductive RPC where
  | start : RPC
  | recheck : RPC
  | checkReg : RPC
  | fetching : RPC
  | writeDisk : Nat → RPC
  | finishOwner : Option Nat → RPC
  | waiting : Nat → RPC
  | reread : RPC
  | done : Option Nat → Bool → RPC
deriving DecidableEq

structure RCfg (n : Nat) where
  disk : Option Nat
  gen : Nat
  closedCh : Nat
  pcs : Fin n → RPC
  fetches : Nat

def rstep (fo : Option Nat) {n : Nat} (c : RCfg n) (i : Fin n) : RCfg n :=
  match c.pcs i with
  | RPC.start =>
    match c.disk with
    | some d =>
      RCfg.mk c.disk c.gen c.closedCh (Function.update c.pcs i (RPC.done (some d) false)) c.fetches
    | none => RCfg.mk c.disk c.gen c.closedCh (Function.update c.pcs i RPC.recheck) c.fetches
  | RPC.recheck =>
    match c.disk with
    | some d =>
      RCfg.mk c.disk c.gen c.closedCh (Function.update c.pcs i (RPC.done (some d) false)) c.fetches
    | none => RCfg.mk c.disk c.gen c.closedCh (Function.update c.pcs i RPC.checkReg) c.fetches
  | RPC.checkReg =>
    if c.gen = c.closedCh + 1 then
      RCfg.mk c.disk c.gen c.closedCh (Function.update c.pcs i (RPC.waiting (c.gen - 1))) c.fetches
    else
      RCfg.mk c.disk (c.gen + 1) c.closedCh (Function.update c.pcs i RPC.fetching) c.fetches
  | RPC.fetching =>
    match fo with
    | some d =>
      RCfg.mk c.disk c.gen c.closedCh (Function.update c.pcs i (RPC.writeDisk d)) (c.fetches + 1)
    | none =>
      RCfg.mk c.disk c.gen c.closedCh (Function.update c.pcs i (RPC.finishOwner none)) (c.fetches + 1)
  | RPC.writeDisk d =>
    RCfg.mk (some d) c.gen c.closedCh (Function.update c.pcs i (RPC.finishOwner (some d))) c.fetches
  | RPC.finishOwner r =>
    RCfg.mk c.disk c.gen (c.closedCh + 1) (Function.update c.pcs i (RPC.done r true)) c.fetches
  | RPC.waiting ch =>
    if ch < c.closedCh then
      RCfg.mk c.disk c.gen c.closedCh (Function.update c.pcs i RPC.reread) c.fetches
    else c
  | RPC.reread =>
    match c.disk with
    | some d =>
      RCfg.mk c.disk c.gen c.closedCh (Function.update c.pcs i (RPC.done (some d) false)) c.fetches
    | none =>
      RCfg.mk c.disk c.gen c.closedCh (Function.update c.pcs i (RPC.done none false)) c.fetches
  | RPC.done _ _ => c

def rrun (fo : Option Nat) {n : Nat} (c : RCfg n) (sched : List (Fin n)) : RCfg n :=
  sched.foldl (rstep fo) c

def rInit (n : Nat) : RCfg n := RCfg.mk none 0 0 (fun _ => RPC.start) 0

def rOwnerP : RPC → Bool
  | RPC.fetching => true
  | RPC.writeDisk _ => true
  | RPC.finishOwner _ => true
  | _ => false

def rFetchingP : RPC → Bool
  | RPC.fetching => true
  | _ => false

def rDoneOwnerP : RPC → Bool
  | RPC.done _ true => true
  | _ => false

def rIsDoneP : RPC → Bool
  | RPC.done _ _ => true
  | _ => false

def rThreadOK (fo : Option Nat) (disk : Option Nat) (closedCh gen : Nat) : RPC → Prop
  | RPC.writeDisk e => some e = fo
  | RPC.finishOwner r => r = fo ∧ (fo ≠ none → disk = fo)
  | RPC.reread => 1 ≤ closedCh
  | RPC.done r _ => r = fo ∧ 1 ≤ gen
  | _ => True

structure RInv (fo : Option Nat) {n : Nat} (c : RCfg n) : Prop where
  hcg : c.closedCh ≤ c.gen
  hgc : c.gen ≤ c.closedCh + 1
  hown : cnt c.pcs rOwnerP = c.gen - c.closedCh
  hdone : cnt c.pcs rDoneOwnerP = c.closedCh
  hfet : c.fetches + cnt c.pcs rFetchingP = c.gen
  hdisk : c.disk = none ∨ c.disk = fo
  hclosed : 1 ≤ c.closedCh → c.disk = fo
  hdg : c.disk ≠ none → 1 ≤ c.gen
  hthread : ∀ j, rThreadOK fo c.disk c.closedCh c.gen (c.pcs j)

lemma rThreadOK_mono (fo d d' : Option Nat) (cl cl' g g' : Nat)
    (hd : d' = d ∨ d' = fo) (hcl : cl ≤ cl') (hg : g ≤ g') (pc : RPC)
    (h : rThreadOK fo d cl g pc) : rThreadOK fo d' cl' g' pc := by
  cases pc with
  | writeDisk e => exact h
  | finishOwner r =>
    refine ⟨h.1, fun hne => ?_⟩
    cases hd with
    | inl he => rw [he]; exact h.2 hne
    | inr he => rw [he]
  | reread => exact Nat.le_trans h hcl
  | done r b => exact ⟨h.1, Nat.le_trans h.2 hg⟩
  | start => trivial
  | recheck => trivial
  | checkReg => trivial
  | fetching => trivial
  | waiting ch => trivial

lemma update_forall {n : Nat} {α : Type} (f : Fin n → α) (i : Fin n) (v : α) (P : α → Prop)
    (hold : ∀ j, P (f j)) (hv : P v) : ∀ j, P (Function.update f i v j) := by
  intro j
  by_cases hj : j = i
  · subst hj; rw [Function.update_same]; exact hv
  · rw [Function.update_noteq hj]; exact hold j

lemma rInv_init (fo : Option Nat) (n : Nat) : RInv fo (rInit n) := by
  refine ⟨?_, ?_, ?_, ?_, ?_, ?_, ?_, ?_, ?_⟩ <;> dsimp only [rInit]
  · exact Nat.le_refl 0
  · exact Nat.le_succ 0
  · rw [cnt_eq_zero]; intro j; rfl
  · rw [cnt_eq_zero]; intro j; rfl
  · rw [cnt_eq_zero]; intro j; rfl
  · exact Or.inl rfl
  · intro hc; exact absurd hc (by omega)
  · intro hd; exact absurd rfl hd
  · intro j; trivial

lemma cnt_update_eval {n : Nat} {α : Type} (f : Fin n → α) (i : Fin n) (v : α) (p : α → Bool)
    (a b : Nat) (hold : ictr (p (f i)) = a) (hnew : ictr (p v) = b) :
    cnt (Function.update f i v) p + a = cnt f p + b := by
  rw [← hold, ← hnew]
  exact cnt_update f i v p

lemma rInv_step (fo : Option Nat) {n : Nat} (c : RCfg n) (i : Fin n) (h : RInv fo c) :
    RInv fo (rstep fo c i) := by
  obtain ⟨hcg, hgc, hown, hdone, hfet, hdisk, hclosed, hdg, hthread⟩ := h
  unfold rstep
  cases hpc : c.pcs i with
  | start =>
    cases hd : c.disk with
    | some d =>
      rw [hd] at hdisk hclosed hdg hthread
      have hde : some d = fo := by
        rcases hdisk with h1 | h1
        · cases h1
        · exact h1
      have hg1 : 1 ≤ c.gen := hdg (by intro hx; cases hx)
      refine ⟨hcg, hgc, ?_, ?_, ?_, hdisk, hclosed, hdg, ?_⟩ <;> dsimp only
      · rw [cnt_update_same]
        · exact hown
        · rw [hpc]; rfl
      · rw [cnt_update_same]
        · exact hdone
        · rw [hpc]; rfl
      · rw [cnt_update_same]
        · exact hfet
        · rw [hpc]; rfl
      · exact update_forall c.pcs i _ _ hthread ⟨hde, hg1⟩
    | none =>
      rw [hd] at hdisk hclosed hdg hthread
      refine ⟨hcg, hgc, ?_, ?_, ?_, hdisk, hclosed, hdg, ?_⟩ <;> dsimp only
      · rw [cnt_update_same]
        · exact hown
        · rw [hpc]; rfl
      · rw [cnt_update_same]
        · exact hdone
        · rw [hpc]; rfl
      · rw [cnt_update_same]
        · exact hfet
        · rw [hpc]; rfl
      · exact update_forall c.pcs i _ _ hthread trivial
  | recheck =>
    cases hd : c.disk with
    | some d =>
      rw [hd] at hdisk hclosed hdg hthread
      have hde : some d = fo := by
        rcases hdisk with h1 | h1
        · cases h1
        · exact h1
      have hg1 : 1 ≤ c.gen := hdg (by intro hx; cases hx)
      refine ⟨hcg, hgc, ?_, ?_, ?_, hdisk, hclosed, hdg, ?_⟩ <;> dsimp only
      · rw [cnt_update_same]
        · exact hown
        · rw [hpc]; rfl
      · rw [cnt_update_same]
        · exact hdone
        · rw [hpc]; rfl
      · rw [cnt_update_same]
        · exact hfet
        · rw [hpc]; rfl
      · exact update_forall c.pcs i _ _ hthread ⟨hde, hg1⟩
    | none =>
      rw [hd] at hdisk hclosed hdg hthread
      refine ⟨hcg, hgc, ?_, ?_, ?_, hdisk, hclosed, hdg, ?_⟩ <;> dsimp only
      · rw [cnt_update_same]
        · exact hown
        · rw [hpc]; rfl
      · rw [cnt_update_same]
        · exact hdone
        · rw [hpc]; rfl
      · rw [cnt_update_same]
        · exact hfet
        · rw [hpc]; rfl
      · exact update_forall c.pcs i _ _ hthread trivial
  | checkReg =>
    by_cases hif : c.gen = c.closedCh + 1
    · rw [if_pos hif]
      refine ⟨hcg, hgc, ?_, ?_, ?_, hdisk, hclosed, hdg, ?_⟩ <;> dsimp only
      · rw [cnt_update_same]
        · exact hown
        · rw [hpc]; rfl
      · rw [cnt_update_same]
        · exact hdone
        · rw [hpc]; rfl
      · rw [cnt_update_same]
        · exact hfet
        · rw [hpc]; rfl
      · exact update_forall c.pcs i _ _ hthread trivial
    · rw [if_neg hif]
      have hge : c.gen = c.closedCh := by omega
      have h2 := cnt_update_eval c.pcs i RPC.fetching rOwnerP 0 1 (by rw [hpc]; rfl) rfl
      have h3 := cnt_update_eval c.pcs i RPC.fetching rDoneOwnerP 0 0 (by rw [hpc]; rfl) rfl
      have h4 := cnt_update_eval c.pcs i RPC.fetching rFetchingP 0 1 (by rw [hpc]; rfl) rfl
      refine ⟨?_, ?_, ?_, ?_, ?_, hdisk, hclosed, ?_, ?_⟩ <;> dsimp only
      · omega
      · omega
      · omega
      · omega
      · omega
      · intro hdne
        exact Nat.le_trans (hdg hdne) (Nat.le_succ _)
      · refine update_forall c.pcs i RPC.fetching
          (rThreadOK fo c.disk c.closedCh (c.gen + 1)) ?_ trivial
        intro j
        exact rThreadOK_mono fo c.disk c.disk c.closedCh c.closedCh c.gen (c.gen + 1)
          (Or.inl rfl) (Nat.le_refl _) (Nat.le_succ _) _ (hthread j)
  | fetching =>
    cases fo with
    | some d =>
      have h2 := cnt_update_eval c.pcs i (RPC.writeDisk d) rFetchingP 1 0 (by rw [hpc]; rfl) rfl
      refine ⟨hcg, hgc, ?_, ?_, ?_, hdisk, hclosed, hdg, ?_⟩ <;> dsimp only
      · rw [cnt_update_same]
        · exact hown
        · rw [hpc]; rfl
      · rw [cnt_update_same]
        · exact hdone
        · rw [hpc]; rfl
      · omega
      · exact update_forall c.pcs i _ _ hthread rfl
    | none =>
      have h2 := cnt_update_eval c.pcs i (RPC.finishOwner none) rFetchingP 1 0 (by rw [hpc]; rfl) rfl
      refine ⟨hcg, hgc, ?_, ?_, ?_, hdisk, hclosed, hdg, ?_⟩ <;> dsimp only
      · rw [cnt_update_same]
        · exact hown
        · rw [hpc]; rfl
      · rw [cnt_update_same]
        · exact hdone
        · rw [hpc]; rfl
      · omega
      · refine update_forall c.pcs i _ _ hthread ⟨rfl, ?_⟩
        intro hx
        exact absurd rfl hx
  | writeDisk d =>
    have hde : some d = fo := by
      have hw := hthread i
      rw [hpc] at hw
      exact hw
    have howni := cnt_pos c.pcs rOwnerP i (by rw [hpc]; rfl)
    refine ⟨hcg, hgc, ?_, ?_, ?_, Or.inr hde, fun _ => hde, ?_, ?_⟩ <;> dsimp only
    · rw [cnt_update_same]
      · exact hown
      · rw [hpc]; rfl
    · rw [cnt_update_same]
      · exact hdone
      · rw [hpc]; rfl
    · rw [cnt_update_same]
      · exact hfet
      · rw [hpc]; rfl
    · intro _
      omega
    · refine update_forall c.pcs i (RPC.finishOwner (some d))
        (rThreadOK fo (some d) c.closedCh c.gen) ?_ ⟨hde, fun _ => hde⟩
      intro j
      exact rThreadOK_mono fo c.disk (some d) c.closedCh c.closedCh c.gen c.gen
        (Or.inr hde) (Nat.le_refl _) (Nat.le_refl _) _ (hthread j)
  | finishOwner r =>
    have hfin : r = fo ∧ (fo ≠ none → c.disk = fo) := by
      have hw := hthread i
      rw [hpc] at hw
      exact hw
    have howni := cnt_pos c.pcs rOwnerP i (by rw [hpc]; rfl)
    have h2 := cnt_update_eval c.pcs i (RPC.done r true) rOwnerP 1 0 (by rw [hpc]; rfl) rfl
    have h3 := cnt_update_eval c.pcs i (RPC.done r true) rDoneOwnerP 0 1 (by rw [hpc]; rfl) rfl
    refine ⟨?_, ?_, ?_, ?_, ?_, hdisk, ?_, hdg, ?_⟩ <;> dsimp only
    · omega
    · omega
    · omega
    · omega
    · rw [cnt_update_same]
      · exact hfet
      · rw [hpc]; rfl
    · intro _
      by_cases hfo : fo = none
      · subst hfo
        rcases hdisk with h1 | h1 <;> exact h1
      · exact hfin.2 hfo
    · refine update_forall c.pcs i (RPC.done r true)
        (rThreadOK fo c.disk (c.closedCh + 1) c.gen) ?_ ⟨hfin.1, by omega⟩
      intro j
      exact rThreadOK_mono fo c.disk c.disk c.closedCh (c.closedCh + 1) c.gen c.gen
        (Or.inl rfl) (Nat.le_succ _) (Nat.le_refl _) _ (hthread j)
  | waiting ch =>
    dsimp only
    by_cases hw : ch < c.closedCh
    · rw [if_pos hw]
      refine ⟨hcg, hgc, ?_, ?_, ?_, hdisk, hclosed, hdg, ?_⟩ <;> dsimp only
      · rw [cnt_update_same]
        · exact hown
        · rw [hpc]; rfl
      · rw [cnt_update_same]
        · exact hdone
        · rw [hpc]; rfl
      · rw [cnt_update_same]
        · exact hfet
        · rw [hpc]; rfl
      · exact update_forall c.pcs i _ _ hthread (by show 1 ≤ c.closedCh; omega)
    · rw [if_neg hw]
      exact ⟨hcg, hgc, hown, hdone, hfet, hdisk, hclosed, hdg, hthread⟩
  | reread =>
    have hcl1 : 1 ≤ c.closedCh := by
      have hw := hthread i
      rw [hpc] at hw
      exact hw
    have hdfo : c.disk = fo := hclosed hcl1
    have hg1 : 1 ≤ c.gen := by omega
    cases hd : c.disk with
    | some d =>
      rw [hd] at hdisk hclosed hdg hthread hdfo
      refine ⟨hcg, hgc, ?_, ?_, ?_, hdisk, hclosed, hdg, ?_⟩ <;> dsimp only
      · rw [cnt_update_same]
        · exact hown
        · rw [hpc]; rfl
      · rw [cnt_update_same]
        · exact hdone
        · rw [hpc]; rfl
      · rw [cnt_update_same]
        · exact hfet
        · rw [hpc]; rfl
      · exact update_forall c.pcs i _ _ hthread ⟨hdfo, hg1⟩
    | none =>
      rw [hd] at hdisk hclosed hdg hthread hdfo
      refine ⟨hcg, hgc, ?_, ?_, ?_, hdisk, hclosed, hdg, ?_⟩ <;> dsimp only
      · rw [cnt_update_same]
        · exact hown
        · rw [hpc]; rfl
      · rw [cnt_update_same]
        · exact hdone
        · rw [hpc]; rfl
      · rw [cnt_update_same]
        · exact hfet
        · rw [hpc]; rfl
      · exact update_forall c.pcs i _ _ hthread ⟨hdfo, hg1⟩
  | done r b =>
    exact ⟨hcg, hgc, hown, hdone, hfet, hdisk, hclosed, hdg, hthread⟩

lemma rInv_run (fo : Option Nat) {n : Nat} (c : RCfg n) (h : RInv fo c)
    (sched : List (Fin n)) : RInv fo (rrun fo c sched) := by
  induction sched generalizing c with
  | nil => exact h
  | cons i rest ih =>
    exact ih (rstep fo c i) (rInv_step fo c i h)

lemma cnt_mono {n : Nat} {α : Type} (f : Fin n → α) (p q : α → Bool)
    (h : ∀ a, p a = true → q a = true) : cnt f p ≤ cnt f q := by
  unfold cnt
  refine Finset.sum_le_sum fun j _ => ?_
  cases hp : p (f j) with
  | true => rw [h (f j) hp]
  | false => exact Nat.zero_le _

lemma rdone_elim (pc : RPC) (h : rIsDoneP pc = true) : ∃ r b, pc = RPC.done r b := by
  cases pc with
  | done r b => exact ⟨r, b, rfl⟩
  | start => exact Bool.noConfusion h
  | recheck => exact Bool.noConfusion h
  | checkReg => exact Bool.noConfusion h
  | fetching => exact Bool.noConfusion h
  | writeDisk d => exact Bool.noConfusion h
  | finishOwner r => exact Bool.noConfusion h
  | waiting ch => exact Bool.noConfusion h
  | reread => exact Bool.noConfusion h

lemma rdone_not_owner (pc : RPC) (h : rIsDoneP pc = true) : rOwnerP pc = false := by
  obtain ⟨r, b, he⟩ := rdone_elim pc h
  rw [he]
  rfl

lemma rdone_not_fetching (pc : RPC) (h : rIsDoneP pc = true) : rFetchingP pc = false := by
  obtain ⟨r, b, he⟩ := rdone_elim pc h
  rw [he]
  rfl

lemma rpc_partition (a : RPC) :
    ictr (rDoneOwnerP a) + ictr (rOwnerP a) + ictr false ≤ 1 := by
  cases a with
  | done r b =>
    cases b with
    | true => exact Nat.le_refl 1
    | false => exact Nat.zero_le 1
  | start => exact Nat.zero_le 1
  | recheck => exact Nat.zero_le 1
  | checkReg => exact Nat.zero_le 1
  | fetching => exact Nat.le_refl 1
  | writeDisk d => exact Nat.le_refl 1
  | finishOwner r => exact Nat.le_refl 1
  | waiting ch => exact Nat.zero_le 1
  | reread => exact Nat.zero_le 1

lemma rInv_mutex (fo : Option Nat) {n : Nat} (c : RCfg n) (h : RInv fo c) :
    cnt c.pcs rFetchingP ≤ 1 := by
  have h1 : cnt c.pcs rFetchingP ≤ cnt c.pcs rOwnerP := by
    refine cnt_mono c.pcs rFetchingP rOwnerP fun a ha => ?_
    cases a with
    | fetching => rfl
    | start => exact Bool.noConfusion ha
    | recheck => exact Bool.noConfusion ha
    | checkReg => exact Bool.noConfusion ha
    | writeDisk d => exact Bool.noConfusion ha
    | finishOwner r => exact Bool.noConfusion ha
    | waiting ch => exact Bool.noConfusion ha
    | reread => exact Bool.noConfusion ha
    | done r b => exact Bool.noConfusion ha
  have h2 := h.hown
  have h3 := h.hgc
  have h4 := h.hcg
  omega

lemma rInv_final (fo : Option Nat) {n : Nat} (c : RCfg n) (h : RInv fo c) (hn : 1 ≤ n)
    (hall : ∀ i, rIsDoneP (c.pcs i) = true) :
    c.fetches = c.gen ∧ 1 ≤ c.fetches ∧ c.fetches ≤ n ∧
    (∀ i r b, c.pcs i = RPC.done r b → r = fo) := by
  have hzo : cnt c.pcs rOwnerP = 0 :=
    cnt_eq_zero c.pcs rOwnerP fun i => rdone_not_owner (c.pcs i) (hall i)
  have hzf : cnt c.pcs rFetchingP = 0 :=
    cnt_eq_zero c.pcs rFetchingP fun i => rdone_not_fetching (c.pcs i) (hall i)
  have hge : c.gen = c.closedCh := by
    have h1 := h.hown
    have h2 := h.hcg
    omega
  have hfg : c.fetches = c.gen := by
    have h1 := h.hfet
    omega
  have hlen : c.gen ≤ n := by
    have h1 := cnt_three_le c.pcs rDoneOwnerP rOwnerP (fun _ => false) rpc_partition
    have h2 := h.hdone
    omega
  have hres : ∀ i r b, c.pcs i = RPC.done r b → r = fo := by
    intro i r b hi
    have hw := h.hthread i
    rw [hi] at hw
    exact hw.1
  have hg1 : 1 ≤ c.gen := by
    have i0 : Fin n := ⟨0, hn⟩
    obtain ⟨r, b, he⟩ := rdone_elim (c.pcs i0) (hall i0)
    have hw := h.hthread i0
    rw [he] at hw
    exact hw.2
  exact ⟨hfg, by omega, by omega, hres⟩

/-
Vector cache thread (vectortile.go GetTile, lines 79-124): VPC.start is the
tiles-map read (lines 83-88); VPC.checkReg the inFlight critical section
(lines 91-104); VPC.fetching the fetchAndParse call (line 107);
VPC.closeReg the delete-and-close critical section (lines 109-112), which
the code runs BEFORE inserting the result; VPC.insertTile the insertion
into the tiles map (lines 119-121), only on success; VPC.waiting blocks on
the recorded channel (line 94); VPC.reread the waiter's map read after the
channel closes (lines 95-98), which returns whatever the map holds with a
nil error. VPC.done r e b carries the returned data r, whether an error was
returned (e) and whether the thread owned the fetch (b): the owner returns
(nil, err) on failure and (data, nil) on success; a waiter always returns
(tiles[key], nil), i.e. e = false.
-/

inductive VPC where
  | start : VPC
  | checkReg : VPC
  | fetching : VPC
  | closeReg : Option Nat → VPC
  | insertTile : Nat → VPC
  | waiting : Nat → VPC
  | reread : VPC
  | done : Option Nat → Bool → Bool → VPC
deriving DecidableEq

structure VCfg (n : Nat) where
  tiles : Option Nat
  gen : Nat
  closedCh : Nat
  pcs : Fin n → VPC
  fetches : Nat

def vstep (fo : Option Nat) {n : Nat} (c : VCfg n) (i : Fin n) : VCfg n :=
  match c.pcs i with
  | VPC.start =>
    match c.tiles with
    | some d =>
      VCfg.mk c.tiles c.gen c.closedCh (Function.update c.pcs i (VPC.done (some d) false false))
        c.fetches
    | none => VCfg.mk c.tiles c.gen c.closedCh (Function.update c.pcs i VPC.checkReg) c.fetches
  | VPC.checkReg =>
    if c.gen = c.closedCh + 1 then
      VCfg.mk c.tiles c.gen c.closedCh (Function.update c.pcs i (VPC.waiting (c.gen - 1))) c.fetches
    else
      VCfg.mk c.tiles (c.gen + 1) c.closedCh (Function.update c.pcs i VPC.fetching) c.fetches
  | VPC.fetching =>
    match fo with
    | some d =>
      VCfg.mk c.tiles c.gen c.closedCh (Function.update c.pcs i (VPC.closeReg (some d)))
        (c.fetches + 1)
    | none =>
      VCfg.mk c.tiles c.gen c.closedCh (Function.update c.pcs i (VPC.closeReg none)) (c.fetches + 1)
  | VPC.closeReg r =>
    match r with
    | some e =>
      VCfg.mk c.tiles c.gen (c.closedCh + 1) (Function.update c.pcs i (VPC.insertTile e)) c.fetches
    | none =>
      VCfg.mk c.tiles c.gen (c.closedCh + 1) (Function.update c.pcs i (VPC.done none true true))
        c.fetches
  | VPC.insertTile e =>
    VCfg.mk (some e) c.gen c.closedCh (Function.update c.pcs i (VPC.done (some e) false true))
      c.fetches
  | VPC.waiting ch =>
    if ch < c.closedCh then
      VCfg.mk c.tiles c.gen c.closedCh (Function.update c.pcs i VPC.reread) c.fetches
    else c
  | VPC.reread =>
    VCfg.mk c.tiles c.gen c.closedCh (Function.update c.pcs i (VPC.done c.tiles false false))
      c.fetches
  | VPC.done _ _ _ => c

def vrun (fo : Option Nat) {n : Nat} (c : VCfg n) (sched : List (Fin n)) : VCfg n :=
  sched.foldl (vstep fo) c

def vInit (n : Nat) : VCfg n := VCfg.mk none 0 0 (fun _ => VPC.start) 0

def vRegP : VPC → Bool
  | VPC.fetching => true
  | VPC.closeReg _ => true
  | _ => false

def vFetchingP : VPC → Bool
  | VPC.fetching => true
  | _ => false

def vInsertP : VPC → Bool
  | VPC.insertTile _ => true
  | _ => false

def vDoneOwnerP : VPC → Bool
  | VPC.done _ _ true => true
  | _ => false

def vIsDoneP : VPC → Bool
  | VPC.done _ _ _ => true
  | _ => false

def vDoneOK (fo : Option Nat) (g : Nat) (r : Option Nat) (e b : Bool) : Prop :=
  1 ≤ g ∧ ((b = true ∧ r = fo ∧ e = fo.isNone) ∨ (b = false ∧ e = false ∧ (r = none ∨ r = fo)))

def vThreadOK (fo : Option Nat) (closedCh gen : Nat) : VPC → Prop
  | VPC.closeReg r => r = fo
  | VPC.insertTile e => some e = fo
  | VPC.reread => 1 ≤ closedCh
  | VPC.done r e b => vDoneOK fo gen r e b
  | _ => True

structure VInv (fo : Option Nat) {n : Nat} (c : VCfg n) : Prop where
  hcg : c.closedCh ≤ c.gen
  hgc : c.gen ≤ c.closedCh + 1
  hreg : cnt c.pcs vRegP = c.gen - c.closedCh
  hdone : cnt c.pcs vDoneOwnerP + cnt c.pcs vInsertP = c.closedCh
  hfet : c.fetches + cnt c.pcs vFetchingP = c.gen
  htiles : c.tiles = none ∨ c.tiles = fo
  htg : c.tiles ≠ none → 1 ≤ c.gen
  hthread : ∀ j, vThreadOK fo c.closedCh c.gen (c.pcs j)

lemma vThreadOK_mono (fo : Option Nat) (cl cl' g g' : Nat) (hcl : cl ≤ cl') (hg : g ≤ g')
    (pc : VPC) (h : vThreadOK fo cl g pc) : vThreadOK fo cl' g' pc := by
  cases pc with
  | closeReg r => exact h
  | insertTile e => exact h
  | reread => exact Nat.le_trans h hcl
  | done r e b => exact ⟨Nat.le_trans h.1 hg, h.2⟩
  | start => trivial
  | checkReg => trivial
  | fetching => trivial
  | waiting ch => trivial

lemma vInv_init (fo : Option Nat) (n : Nat) : VInv fo (vInit n) := by
  refine ⟨?_, ?_, ?_, ?_, ?_, ?_, ?_, ?_⟩ <;> dsimp only [vInit]
  · exact Nat.le_refl 0
  · exact Nat.le_succ 0
  · rw [cnt_eq_zero]; intro j; rfl
  · rw [cnt_eq_zero _ vDoneOwnerP, cnt_eq_zero _ vInsertP]
    · intro j; rfl
    · intro j; rfl
  · rw [cnt_eq_zero]; intro j; rfl
  · exact Or.inl rfl
  · intro hd; exact absurd rfl hd
  · intro j; trivial

lemma vInv_step (fo : Option Nat) {n : Nat} (c : VCfg n) (i : Fin n) (h : VInv fo c) :
    VInv fo (vstep fo c i) := by
  obtain ⟨hcg, hgc, hreg, hdone, hfet, htiles, htg, hthread⟩ := h
  unfold vstep
  cases hpc : c.pcs i with
  | start =>
    cases hd : c.tiles with
    | some d =>
      rw [hd] at htiles htg
      have hde : some d = fo := by
        rcases htiles with h1 | h1
        · cases h1
        · exact h1
      have hg1 : 1 ≤ c.gen := htg (by intro hx; cases hx)
      refine ⟨hcg, hgc, ?_, ?_, ?_, htiles, htg, ?_⟩ <;> dsimp only
      · rw [cnt_update_same]
        · exact hreg
        · rw [hpc]; rfl
      · rw [cnt_update_same, cnt_update_same]
        · exact hdone
        · rw [hpc]; rfl
        · rw [hpc]; rfl
      · rw [cnt_update_same]
        · exact hfet
        · rw [hpc]; rfl
      · refine update_forall c.pcs i _ _ hthread ⟨hg1, Or.inr ⟨rfl, rfl, Or.inr hde⟩⟩
    | none =>
      rw [hd] at htiles htg
      refine ⟨hcg, hgc, ?_, ?_, ?_, htiles, htg, ?_⟩ <;> dsimp only
      · rw [cnt_update_same]
        · exact hreg
        · rw [hpc]; rfl
      · rw [cnt_update_same, cnt_update_same]
        · exact hdone
        · rw [hpc]; rfl
        · rw [hpc]; rfl
      · rw [cnt_update_same]
        · exact hfet
        · rw [hpc]; rfl
      · exact update_forall c.pcs i _ _ hthread trivial
  | checkReg =>
    by_cases hif : c.gen = c.closedCh + 1
    · rw [if_pos hif]
      refine ⟨hcg, hgc, ?_, ?_, ?_, htiles, htg, ?_⟩ <;> dsimp only
      · rw [cnt_update_same]
        · exact hreg
        · rw [hpc]; rfl
      · rw [cnt_update_same, cnt_update_same]
        · exact hdone
        · rw [hpc]; rfl
        · rw [hpc]; rfl
      · rw [cnt_update_same]
        · exact hfet
        · rw [hpc]; rfl
      · exact update_forall c.pcs i _ _ hthread trivial
    · rw [if_neg hif]
      have hge : c.gen = c.closedCh := by omega
      have h2 := cnt_update_eval c.pcs i VPC.fetching vRegP 0 1 (by rw [hpc]; rfl) rfl
      have h3 := cnt_update_eval c.pcs i VPC.fetching vDoneOwnerP 0 0 (by rw [hpc]; rfl) rfl
      have h3b := cnt_update_eval c.pcs i VPC.fetching vInsertP 0 0 (by rw [hpc]; rfl) rfl
      have h4 := cnt_update_eval c.pcs i VPC.fetching vFetchingP 0 1 (by rw [hpc]; rfl) rfl
      refine ⟨?_, ?_, ?_, ?_, ?_, htiles, ?_, ?_⟩ <;> dsimp only
      · omega
      · omega
      · omega
      · omega
      · omega
      · intro hdne
        exact Nat.le_trans (htg hdne) (Nat.le_succ _)
      · refine update_forall c.pcs i VPC.fetching
          (vThreadOK fo c.closedCh (c.gen + 1)) ?_ trivial
        intro j
        exact vThreadOK_mono fo c.closedCh c.closedCh c.gen (c.gen + 1)
          (Nat.le_refl _) (Nat.le_succ _) _ (hthread j)
  | fetching =>
    cases fo with
    | some d =>
      have h2 := cnt_update_eval c.pcs i (VPC.closeReg (some d)) vFetchingP 1 0
        (by rw [hpc]; rfl) rfl
      refine ⟨hcg, hgc, ?_, ?_, ?_, htiles, htg, ?_⟩ <;> dsimp only
      · rw [cnt_update_same]
        · exact hreg
        · rw [hpc]; rfl
      · rw [cnt_update_same, cnt_update_same]
        · exact hdone
        · rw [hpc]; rfl
        · rw [hpc]; rfl
      · omega
      · exact update_forall c.pcs i _ _ hthread rfl
    | none =>
      have h2 := cnt_update_eval c.pcs i (VPC.closeReg none) vFetchingP 1 0
        (by rw [hpc]; rfl) rfl
      refine ⟨hcg, hgc, ?_, ?_, ?_, htiles, htg, ?_⟩ <;> dsimp only
      · rw [cnt_update_same]
        · exact hreg
        · rw [hpc]; rfl
      · rw [cnt_update_same, cnt_update_same]
        · exact hdone
        · rw [hpc]; rfl
        · rw [hpc]; rfl
      · omega
      · exact update_forall c.pcs i _ _ hthread rfl
  | closeReg r =>
    have hcr : r = fo := by
      have hw := hthread i
      rw [hpc] at hw
      exact hw
    have hregi := cnt_pos c.pcs vRegP i (by rw [hpc]; rfl)
    cases r with
    | some e =>
      have h2 := cnt_update_eval c.pcs i (VPC.insertTile e) vRegP 1 0 (by rw [hpc]; rfl) rfl
      have h3 := cnt_update_eval c.pcs i (VPC.insertTile e) vDoneOwnerP 0 0
        (by rw [hpc]; rfl) rfl
      have h3b := cnt_update_eval c.pcs i (VPC.insertTile e) vInsertP 0 1 (by rw [hpc]; rfl) rfl
      have h4 := cnt_update_eval c.pcs i (VPC.insertTile e) vFetchingP 0 0 (by rw [hpc]; rfl) rfl
      refine ⟨?_, ?_, ?_, ?_, ?_, htiles, ?_, ?_⟩ <;> dsimp only
      · omega
      · omega
      · omega
      · omega
      · omega
      · intro hdne
        exact htg hdne
      · refine update_forall c.pcs i (VPC.insertTile e)
          (vThreadOK fo (c.closedCh + 1) c.gen) ?_ hcr
        intro j
        exact vThreadOK_mono fo c.closedCh (c.closedCh + 1) c.gen c.gen
          (Nat.le_succ _) (Nat.le_refl _) _ (hthread j)
    | none =>
      have h2 := cnt_update_eval c.pcs i (VPC.done none true true) vRegP 1 0
        (by rw [hpc]; rfl) rfl
      have h3 := cnt_update_eval c.pcs i (VPC.done none true true) vDoneOwnerP 0 1
        (by rw [hpc]; rfl) rfl
      have h3b := cnt_update_eval c.pcs i (VPC.done none true true) vInsertP 0 0
        (by rw [hpc]; rfl) rfl
      have h4 := cnt_update_eval c.pcs i (VPC.done none true true) vFetchingP 0 0
        (by rw [hpc]; rfl) rfl
      refine ⟨?_, ?_, ?_, ?_, ?_, htiles, ?_, ?_⟩ <;> dsimp only
      · omega
      · omega
      · omega
      · omega
      · omega
      · intro hdne
        exact htg hdne
      · refine update_forall c.pcs i (VPC.done none true true)
          (vThreadOK fo (c.closedCh + 1) c.gen) ?_ ?_
        · intro j
          exact vThreadOK_mono fo c.closedCh (c.closedCh + 1) c.gen c.gen
            (Nat.le_succ _) (Nat.le_refl _) _ (hthread j)
        · refine ⟨by omega, Or.inl ⟨rfl, hcr, ?_⟩⟩
          rw [← hcr]
          rfl
  | insertTile e =>
    have hie : some e = fo := by
      have hw := hthread i
      rw [hpc] at hw
      exact hw
    have hinsi := cnt_pos c.pcs vInsertP i (by rw [hpc]; rfl)
    have hg1 : 1 ≤ c.gen := by omega
    have h2 := cnt_update_eval c.pcs i (VPC.done (some e) false true) vRegP 0 0
      (by rw [hpc]; rfl) rfl
    have h3 := cnt_update_eval c.pcs i (VPC.done (some e) false true) vDoneOwnerP 0 1
      (by rw [hpc]; rfl) rfl
    have h3b := cnt_update_eval c.pcs i (VPC.done (some e) false true) vInsertP 1 0
      (by rw [hpc]; rfl) rfl
    have h4 := cnt_update_eval c.pcs i (VPC.done (some e) false true) vFetchingP 0 0
      (by rw [hpc]; rfl) rfl
    refine ⟨hcg, hgc, ?_, ?_, ?_, Or.inr hie, ?_, ?_⟩ <;> dsimp only
    · omega
    · omega
    · omega
    · intro _
      exact hg1
    · refine update_forall c.pcs i (VPC.done (some e) false true)
        (vThreadOK fo c.closedCh c.gen) ?_ ?_
      · exact hthread
      · refine ⟨hg1, Or.inl ⟨rfl, hie, ?_⟩⟩
        rw [← hie]
        rfl
  | waiting ch =>
    dsimp only
    by_cases hw : ch < c.closedCh
    · rw [if_pos hw]
      refine ⟨hcg, hgc, ?_, ?_, ?_, htiles, htg, ?_⟩ <;> dsimp only
      · rw [cnt_update_same]
        · exact hreg
        · rw [hpc]; rfl
      · rw [cnt_update_same, cnt_update_same]
        · exact hdone
        · rw [hpc]; rfl
        · rw [hpc]; rfl
      · rw [cnt_update_same]
        · exact hfet
        · rw [hpc]; rfl
      · exact update_forall c.pcs i _ _ hthread (by show 1 ≤ c.closedCh; omega)
    · rw [if_neg hw]
      exact ⟨hcg, hgc, hreg, hdone, hfet, htiles, htg, hthread⟩
  | reread =>
    have hcl1 : 1 ≤ c.closedCh := by
      have hw := hthread i
      rw [hpc] at hw
      exact hw
    have hg1 : 1 ≤ c.gen := by omega
    refine ⟨hcg, hgc, ?_, ?_, ?_, htiles, htg, ?_⟩ <;> dsimp only
    · rw [cnt_update_same]
      · exact hreg
      · rw [hpc]; rfl
    · rw [cnt_update_same, cnt_update_same]
      · exact hdone
      · rw [hpc]; rfl
      · rw [hpc]; rfl
    · rw [cnt_update_same]
      · exact hfet
      · rw [hpc]; rfl
    · refine update_forall c.pcs i _ _ hthread ⟨hg1, Or.inr ⟨rfl, rfl, ?_⟩⟩
      exact htiles
  | done r e b =>
    exact ⟨hcg, hgc, hreg, hdone, hfet, htiles, htg, hthread⟩

lemma vInv_run (fo : Option Nat) {n : Nat} (c : VCfg n) (h : VInv fo c)
    (sched : List (Fin n)) : VInv fo (vrun fo c sched) := by
  induction sched generalizing c with
  | nil => exact h
  | cons i rest ih =>
    exact ih (vstep fo c i) (vInv_step fo c i h)

lemma vdone_elim (pc : VPC) (h : vIsDoneP pc = true) : ∃ r e b, pc = VPC.done r e b := by
  cases pc with
  | done r e b => exact ⟨r, e, b, rfl⟩
  | start => exact Bool.noConfusion h
  | checkReg => exact Bool.noConfusion h
  | fetching => exact Bool.noConfusion h
  | closeReg r => exact Bool.noConfusion h
  | insertTile e => exact Bool.noConfusion h
  | waiting ch => exact Bool.noConfusion h
  | reread => exact Bool.noConfusion h

lemma vdone_not_reg (pc : VPC) (h : vIsDoneP pc = true) : vRegP pc = false := by
  obtain ⟨r, e, b, he⟩ := vdone_elim pc h
  rw [he]
  rfl

lemma vdone_not_fetching (pc : VPC) (h : vIsDoneP pc = true) : vFetchingP pc = false := by
  obtain ⟨r, e, b, he⟩ := vdone_elim pc h
  rw [he]
  rfl

lemma vdone_not_insert (pc : VPC) (h : vIsDoneP pc = true) : vInsertP pc = false := by
  obtain ⟨r, e, b, he⟩ := vdone_elim pc h
  rw [he]
  rfl

lemma vpc_partition (a : VPC) :
    ictr (vDoneOwnerP a) + ictr (vInsertP a) + ictr (vRegP a) ≤ 1 := by
  cases a with
  | done r e b =>
    cases b with
    | true => exact Nat.le_refl 1
    | false => exact Nat.zero_le 1
  | start => exact Nat.zero_le 1
  | checkReg => exact Nat.zero_le 1
  | fetching => exact Nat.le_refl 1
  | closeReg r => exact Nat.le_refl 1
  | insertTile e => exact Nat.le_refl 1
  | waiting ch => exact Nat.zero_le 1
  | reread => exact Nat.zero_le 1

lemma vInv_mutex (fo : Option Nat) {n : Nat} (c : VCfg n) (h : VInv fo c) :
    cnt c.pcs vFetchingP ≤ 1 := by
  have h1 : cnt c.pcs vFetchingP ≤ cnt c.pcs vRegP := by
    refine cnt_mono c.pcs vFetchingP vRegP fun a ha => ?_
    cases a with
    | fetching => rfl
    | start => exact Bool.noConfusion ha
    | checkReg => exact Bool.noConfusion ha
    | closeReg r => exact Bool.noConfusion ha
    | insertTile e => exact Bool.noConfusion ha
    | waiting ch => exact Bool.noConfusion ha
    | reread => exact Bool.noConfusion ha
    | done r e b => exact Bool.noConfusion ha
  have h2 := h.hreg
  have h3 := h.hgc
  have h4 := h.hcg
  omega

lemma vInv_final (fo : Option Nat) {n : Nat} (c : VCfg n) (h : VInv fo c) (hn : 1 ≤ n)
    (hall : ∀ i, vIsDoneP (c.pcs i) = true) :
    c.fetches = c.gen ∧ 1 ≤ c.fetches ∧ c.fetches ≤ n ∧
    (∀ i r e b, c.pcs i = VPC.done r e b →
      (b = true → r = fo ∧ e = fo.isNone) ∧ (b = false → e = false ∧ (r = none ∨ r = fo))) := by
  have hzr : cnt c.pcs vRegP = 0 :=
    cnt_eq_zero c.pcs vRegP fun i => vdone_not_reg (c.pcs i) (hall i)
  have hzf : cnt c.pcs vFetchingP = 0 :=
    cnt_eq_zero c.pcs vFetchingP fun i => vdone_not_fetching (c.pcs i) (hall i)
  have hzi : cnt c.pcs vInsertP = 0 :=
    cnt_eq_zero c.pcs vInsertP fun i => vdone_not_insert (c.pcs i) (hall i)
  have hge : c.gen = c.closedCh := by
    have h1 := h.hreg
    have h2 := h.hcg
    omega
  have hfg : c.fetches = c.gen := by
    have h1 := h.hfet
    omega
  have hlen : c.gen ≤ n := by
    have h1 := cnt_three_le c.pcs vDoneOwnerP vInsertP vRegP vpc_partition
    have h2 := h.hdone
    omega
  have hres : ∀ i r e b, c.pcs i = VPC.done r e b →
      (b = true → r = fo ∧ e = fo.isNone) ∧ (b = false → e = false ∧ (r = none ∨ r = fo)) := by
    intro i r e b hi
    have hw := h.hthread i
    rw [hi] at hw
    rcases hw.2 with ⟨hb, hr, he⟩ | ⟨hb, he, hr⟩
    · subst hb
      exact ⟨fun _ => ⟨hr, he⟩, fun hfalse => Bool.noConfusion hfalse⟩
    · subst hb
      exact ⟨fun htrue => Bool.noConfusion htrue, fun _ => ⟨he, hr⟩⟩
  have hg1 : 1 ≤ c.gen := by
    have i0 : Fin n := ⟨0, hn⟩
    obtain ⟨r, e, b, he⟩ := vdone_elim (c.pcs i0) (hall i0)
    have hw := h.hthread i0
    rw [he] at hw
    exact hw.1
  exact ⟨hfg, by omega, by omega, hres⟩

lemma r_solo_fetches (g : Nat) :
    (rrun none (RCfg.mk none g g (fun _ => RPC.start) 0 : RCfg 1) [0, 0, 0, 0, 0]).fetches = 1 := by
  simp [rrun, rstep, Function.update]

lemma v_solo_fetches (g : Nat) :
    (vrun none (VCfg.mk none g g (fun _ => VPC.start) 0 : VCfg 1) [0, 0, 0, 0]).fetches = 1 := by
  simp [vrun, vstep, Function.update]


/-- C1 counterexample: single-flight does not give exactly one fetch. In the
raster machine with every fetch succeeding with payload 7, the schedule in
which thread 0 misses the disk (GetTile line 200 and fetchTile line 222)
before thread 1 runs its whole fetch to completion ends with BOTH threads
having performed a network fetch (fetches = 2), both returning successfully:
thread 0's registry check happens after thread 1 already deregistered, so it
becomes a second owner. In the vector machine, a waiter scheduled between
the owner's close (vectortile.go 109-112) and insert (119-121) returns an
absent result while the owner returns the data — the N callers do not all
receive identical data. -/
theorem c1_single_flight_counterexample :
    ((rrun (some 7) (rInit 2) [0, 0, 1, 1, 1, 1, 1, 1, 0, 0, 0, 0]).fetches = 2 ∧
     (rrun (some 7) (rInit 2) [0, 0, 1, 1, 1, 1, 1, 1, 0, 0, 0, 0]).pcs 0
        = RPC.done (some 7) true ∧
     (rrun (some 7) (rInit 2) [0, 0, 1, 1, 1, 1, 1, 1, 0, 0, 0, 0]).pcs 1
        = RPC.done (some 7) true) ∧
    ((vrun (some 7) (vInit 2) [0, 0, 1, 1, 0, 0, 1, 1, 0]).pcs 1 = VPC.done none false false ∧
     (vrun (some 7) (vInit 2) [0, 0, 1, 1, 0, 0, 1, 1, 0]).pcs 0 = VPC.done (some 7) false true) := by
  decide

/-- C1 (amended): under every schedule, at most one fetch is in flight at any
time in either cache; when all N callers have completed, at least one and at
most N fetches were performed in total; every raster caller returns
successfully with the fetched payload; every vector caller returns without
error either the fetched payload or — if it read the map in the window
between the completion signal and the insertion — an absent result. -/
theorem c1_single_flight_amended (d : Nat) (n : Nat) (hn : 1 ≤ n)
    (rsched vsched : List (Fin n)) :
    (cnt (rrun (some d) (rInit n) rsched).pcs rFetchingP ≤ 1 ∧
      ((∀ i, rIsDoneP ((rrun (some d) (rInit n) rsched).pcs i) = true) →
        1 ≤ (rrun (some d) (rInit n) rsched).fetches ∧
        (rrun (some d) (rInit n) rsched).fetches ≤ n ∧
        (∀ i r b, (rrun (some d) (rInit n) rsched).pcs i = RPC.done r b → r = some d))) ∧
    (cnt (vrun (some d) (vInit n) vsched).pcs vFetchingP ≤ 1 ∧
      ((∀ i, vIsDoneP ((vrun (some d) (vInit n) vsched).pcs i) = true) →
        1 ≤ (vrun (some d) (vInit n) vsched).fetches ∧
        (vrun (some d) (vInit n) vsched).fetches ≤ n ∧
        (∀ i r e b, (vrun (some d) (vInit n) vsched).pcs i = VPC.done r e b →
          e = false ∧ (b = true → r = some d) ∧ (r = some d ∨ r = none)))) := by
  have hri := rInv_run (some d) (rInit n) (rInv_init (some d) n) rsched
  have hvi := vInv_run (some d) (vInit n) (vInv_init (some d) n) vsched
  refine ⟨⟨rInv_mutex (some d) _ hri, ?_⟩, ⟨vInv_mutex (some d) _ hvi, ?_⟩⟩
  · intro hall
    obtain ⟨h1, h2, h3, h4⟩ := rInv_final (some d) _ hri hn hall
    exact ⟨h2, h3, h4⟩
  · intro hall
    obtain ⟨h1, h2, h3, h4⟩ := vInv_final (some d) _ hvi hn hall
    refine ⟨h2, h3, ?_⟩
    intro i r e b hi
    obtain ⟨hbt, hbf⟩ := h4 i r e b hi
    cases b with
    | true =>
      obtain ⟨hr, he⟩ := hbt rfl
      exact ⟨he, fun _ => hr, Or.inl hr⟩
    | false =>
      obtain ⟨he, hr⟩ := hbf rfl
      rcases hr with h5 | h5
      · exact ⟨he, fun hx => Bool.noConfusion hx, Or.inr h5⟩
      · exact ⟨he, fun hx => Bool.noConfusion hx, Or.inl h5⟩

/-- C1 witness: the amended statement instantiated at payload 7, two threads
and concrete schedules. -/
theorem c1_single_flight_amended_witness :
    (cnt (rrun (some 7) (rInit 2) [0, 1, 1, 1]).pcs rFetchingP ≤ 1 ∧
      ((∀ i, rIsDoneP ((rrun (some 7) (rInit 2) [0, 1, 1, 1]).pcs i) = true) →
        1 ≤ (rrun (some 7) (rInit 2) [0, 1, 1, 1]).fetches ∧
        (rrun (some 7) (rInit 2) [0, 1, 1, 1]).fetches ≤ 2 ∧
        (∀ i r b, (rrun (some 7) (rInit 2) [0, 1, 1, 1]).pcs i = RPC.done r b → r = some 7))) ∧
    (cnt (vrun (some 7) (vInit 2) [0, 1]).pcs vFetchingP ≤ 1 ∧
      ((∀ i, vIsDoneP ((vrun (some 7) (vInit 2) [0, 1]).pcs i) = true) →
        1 ≤ (vrun (some 7) (vInit 2) [0, 1]).fetches ∧
        (vrun (some 7) (vInit 2) [0, 1]).fetches ≤ 2 ∧
        (∀ i r e b, (vrun (some 7) (vInit 2) [0, 1]).pcs i = VPC.done r e b →
          e = false ∧ (b = true → r = some 7) ∧ (r = some 7 ∨ r = none)))) :=
  c1_single_flight_amended 7 2 (by norm_num) [0, 1, 1, 1] [0, 1]

/-- C2: in the vector cache a waiter on a failed fetch gets no error. With
every fetch failing, the owner (thread 0) returns an absent result WITH an
error (VPC.done none true true, vectortile.go line 115), but the waiter
(thread 1) wakes after the close, re-reads the map and returns an absent
result with a nil error (VPC.done none false false, lines 94-98) — the
claimed error propagation fails for the vector cache. The raster waiter, by
contrast, re-reads the missing file and does get an error (RPC.done none
false, server.go line 231). -/
theorem c2_vector_waiter_nil_error :
    (vrun none (vInit 2) [0, 0, 1, 1, 0, 0, 1, 1]).pcs 1 = VPC.done none false false ∧
    (vrun none (vInit 2) [0, 0, 1, 1, 0, 0, 1, 1]).pcs 0 = VPC.done none true true ∧
    (rrun none (rInit 2) [0, 0, 0, 1, 1, 1, 0, 0, 1, 1]).pcs 1 = RPC.done none false := by
  decide

/-- C3: the vector cache fires the completion signal before recording the
result. After the four steps of a successful solo GetTile up to and
including the delete-and-close critical section (vectortile.go 109-112),
the channel is closed (closedCh = 1) while the tiles map still has no entry
(tiles = none); the insertion (lines 119-121) only lands on the next step. -/
theorem c3_vector_signal_before_insert :
    (vrun (some 7) (vInit 1) [0, 0, 0, 0]).closedCh = 1 ∧
    (vrun (some 7) (vInit 1) [0, 0, 0, 0]).tiles = none ∧
    (vrun (some 7) (vInit 1) [0, 0, 0, 0, 0]).tiles = some 7 := by
  decide

/-- C4: a failed fetch leaves the cache unpopulated and the registry empty,
and a subsequent caller starting from that state performs a fresh fetch.
With every fetch failing, any schedule leaves the raster disk entry and the
vector map entry absent; once all callers finish, the in-flight registry is
empty (gen = closedCh); and a single fresh caller starting from an
arbitrary such quiescent state (entry absent, registry empty after g
completed generations) performs exactly one new fetch. -/
theorem c4_failed_fetch_retryable (n : Nat) (rsched vsched : List (Fin n)) (g : Nat) :
    (rrun none (rInit n) rsched).disk = none ∧
    ((∀ i, rIsDoneP ((rrun none (rInit n) rsched).pcs i) = true) →
      (rrun none (rInit n) rsched).gen = (rrun none (rInit n) rsched).closedCh) ∧
    (vrun none (vInit n) vsched).tiles = none ∧
    ((∀ i, vIsDoneP ((vrun none (vInit n) vsched).pcs i) = true) →
      (vrun none (vInit n) vsched).gen = (vrun none (vInit n) vsched).closedCh) ∧
    (rrun none (RCfg.mk none g g (fun _ => RPC.start) 0 : RCfg 1) [0, 0, 0, 0, 0]).fetches = 1 ∧
    (vrun none (VCfg.mk none g g (fun _ => VPC.start) 0 : VCfg 1) [0, 0, 0, 0]).fetches = 1 := by
  have hri := rInv_run none (rInit n) (rInv_init none n) rsched
  have hvi := vInv_run none (vInit n) (vInv_init none n) vsched
  refine ⟨?_, ?_, ?_, ?_, r_solo_fetches g, v_solo_fetches g⟩
  · rcases hri.hdisk with h1 | h1 <;> exact h1
  · intro hall
    have hz := cnt_eq_zero _ rOwnerP fun i => rdone_not_owner _ (hall i)
    have h1 := hri.hown
    have h2 := hri.hcg
    omega
  · rcases hvi.htiles with h1 | h1 <;> exact h1
  · intro hall
    have hz := cnt_eq_zero _ vRegP fun i => vdone_not_reg _ (hall i)
    have h1 := hvi.hreg
    have h2 := hvi.hcg
    omega

/-- C4 witness: a complete failing solo run of each cache, its quiescent
final registry, and the fresh fetch from the quiescent state. -/
theorem c4_failed_fetch_retryable_witness :
    (rrun none (rInit 1) [0, 0, 0, 0, 0]).disk = none ∧
    (rrun none (rInit 1) [0, 0, 0, 0, 0]).gen = (rrun none (rInit 1) [0, 0, 0, 0, 0]).closedCh ∧
    (vrun none (vInit 1) [0, 0, 0, 0]).tiles = none ∧
    (vrun none (vInit 1) [0, 0, 0, 0]).gen = (vrun none (vInit 1) [0, 0, 0, 0]).closedCh ∧
    (rrun none (RCfg.mk none 0 0 (fun _ => RPC.start) 0 : RCfg 1) [0, 0, 0, 0, 0]).fetches = 1 ∧
    (vrun none (VCfg.mk none 0 0 (fun _ => VPC.start) 0 : VCfg 1) [0, 0, 0, 0]).fetches = 1 := by
  have h := c4_failed_fetch_retryable 1 [0, 0, 0, 0, 0] [0, 0, 0, 0] 0
  exact ⟨h.1, h.2.1 (by decide), h.2.2.1, h.2.2.2.1 (by decide), h.2.2.2.2.1, h.2.2.2.2.2⟩

end MapSpec
